import Mathlib

/-!
# Verification of the skyshelve boundary layer

A shallow embedding of `skyshelve.go`: the batched-operation wire codec,
the handle registry, the boundary entry points, the store opener, and the
prefix-range computation, together with theorems settling the spec claims.

Bytes are modelled as `Nat` (with explicit `% 256` / hypotheses `< 256`
where byte arithmetic matters); Go strings are modelled as `List Char`.
The two storage engines (BadgerDB, SlateDB) are external dependencies;
their key-value behaviour is modelled as an association-list store with
the interface semantics of spec section 4.1, while all code of
`skyshelve.go` itself is embedded faithfully.
-/

/-- A byte string: list of byte values. -/
abbrev Bytes := List Nat

/-- `binary.LittleEndian.Uint32` on four bytes. -/
def le32 (b0 b1 b2 b3 : Nat) : Nat :=
  b0 + b1 * 256 + b2 * 65536 + b3 * 16777216

/-- `binary.LittleEndian.PutUint32`: the four little-endian bytes of `n`. -/
def putU32 (n : Nat) : Bytes :=
  [n % 256, n / 256 % 256, n / 65536 % 256, n / 16777216 % 256]

/-- The `operation` struct of `skyshelve.go`: opcode, key, value. -/
structure operation where
  op : Nat
  key : Bytes
  value : Bytes
deriving DecidableEq, Repr

/-- `decodeOperations` of `skyshelve.go`, recursing on the remaining
buffer instead of carrying an explicit `offset` (each loop iteration of
the Go function consumes a non-empty prefix of the buffer; the value
length field is read with `getD`, mirroring `data[offset:offset+4]`
after the `offset+4 > len(data)` bound check). -/
def decodeOperations : Bytes → Except String (List operation)
  | [] => Except.ok []
  | op :: k0 :: k1 :: k2 :: k3 :: r1 =>
    if le32 k0 k1 k2 k3 ≤ r1.length then
      if op = 0 then
        if 4 ≤ (r1.drop (le32 k0 k1 k2 k3)).length then
          if le32 ((r1.drop (le32 k0 k1 k2 k3)).getD 0 0)
              ((r1.drop (le32 k0 k1 k2 k3)).getD 1 0)
              ((r1.drop (le32 k0 k1 k2 k3)).getD 2 0)
              ((r1.drop (le32 k0 k1 k2 k3)).getD 3 0) ≤
              (r1.drop (le32 k0 k1 k2 k3)).length - 4 then
            match decodeOperations
                (((r1.drop (le32 k0 k1 k2 k3)).drop 4).drop
                  (le32 ((r1.drop (le32 k0 k1 k2 k3)).getD 0 0)
                    ((r1.drop (le32 k0 k1 k2 k3)).getD 1 0)
                    ((r1.drop (le32 k0 k1 k2 k3)).getD 2 0)
                    ((r1.drop (le32 k0 k1 k2 k3)).getD 3 0))) with
            | Except.ok ops =>
                Except.ok
                  (⟨0, r1.take (le32 k0 k1 k2 k3),
                    ((r1.drop (le32 k0 k1 k2 k3)).drop 4).take
                      (le32 ((r1.drop (le32 k0 k1 k2 k3)).getD 0 0)
                        ((r1.drop (le32 k0 k1 k2 k3)).getD 1 0)
                        ((r1.drop (le32 k0 k1 k2 k3)).getD 2 0)
                        ((r1.drop (le32 k0 k1 k2 k3)).getD 3 0))⟩ :: ops)
            | Except.error e => Except.error e
          else Except.error "malformed operation value"
        else Except.error "malformed operation value length"
      else if op = 1 then
        match decodeOperations (r1.drop (le32 k0 k1 k2 k3)) with
        | Except.ok ops => Except.ok (⟨1, r1.take (le32 k0 k1 k2 k3), []⟩ :: ops)
        | Except.error e => Except.error e
      else Except.error "unknown operation code"
    else Except.error "malformed operation key"
  | _ :: _ => Except.error "malformed operation key length"
termination_by data => data.length
decreasing_by
  · simp only [List.length_drop, List.length_cons]
    omega
  · simp only [List.length_drop, List.length_cons]
    omega

/-- A batch operation as described by the spec's data model:
`Set(key, value)` or `Delete(key)`. -/
inductive batchOp where
  | set (key value : Bytes) : batchOp
  | del (key : Bytes) : batchOp
deriving DecidableEq, Repr

/-- The batch wire format of one record: opcode byte, 4-byte little-endian
key length, key bytes, and for `set` additionally 4-byte little-endian
value length and value bytes. -/
def encodeOp : batchOp → Bytes
  | .set k v => 0 :: (putU32 k.length ++ k ++ putU32 v.length ++ v)
  | .del k => 1 :: (putU32 k.length ++ k)

/-- Concatenation of the records of a batch, in order. -/
def encodeOps (ops : List batchOp) : Bytes :=
  (ops.map encodeOp).flatten

/-- The `operation` record that decoding an encoded `batchOp` produces
(a decoded delete carries the empty value, Go's zero value). -/
def toOperation : batchOp → operation
  | .set k v => ⟨0, k, v⟩
  | .del k => ⟨1, k, []⟩

/-- Lengths representable in the 4-byte length fields. -/
def batchOpValid : batchOp → Bool
  | .set k v => decide (k.length < 2 ^ 32) && decide (v.length < 2 ^ 32)
  | .del k => decide (k.length < 2 ^ 32)

theorem le32_putU32 (n : Nat) (h : n < 2 ^ 32) :
    le32 (n % 256) (n / 256 % 256) (n / 65536 % 256) (n / 16777216 % 256) = n := by
  simp only [le32]
  omega

theorem putU32_length (n : Nat) : (putU32 n).length = 4 := rfl

theorem le32_getD_putU32_append (n : Nat) (x : Bytes) (h : n < 2 ^ 32) :
    le32 ((putU32 n ++ x).getD 0 0) ((putU32 n ++ x).getD 1 0)
      ((putU32 n ++ x).getD 2 0) ((putU32 n ++ x).getD 3 0) = n := by
  show le32 (n % 256) (n / 256 % 256) (n / 65536 % 256) (n / 16777216 % 256) = n
  exact le32_putU32 n h

theorem decode_encodeOp_cons (o : batchOp) (rest : Bytes)
    (h : batchOpValid o = true) :
    decodeOperations (encodeOp o ++ rest) =
      match decodeOperations rest with
      | Except.ok ops => Except.ok (toOperation o :: ops)
      | Except.error e => Except.error e := by
  cases o with
  | set k v =>
    simp only [batchOpValid, Bool.and_eq_true, decide_eq_true_eq] at h
    obtain ⟨hk, hv⟩ := h
    have e1 : encodeOp (batchOp.set k v) ++ rest =
        0 :: (k.length % 256) :: (k.length / 256 % 256) ::
          (k.length / 65536 % 256) :: (k.length / 16777216 % 256) ::
          (k ++ (putU32 v.length ++ (v ++ rest))) := by
      simp [encodeOp, putU32]
    rw [e1, decodeOperations, le32_putU32 k.length hk]
    have hlen : k.length ≤ (k ++ (putU32 v.length ++ (v ++ rest))).length := by
      simp
    rw [if_pos hlen, if_pos rfl, List.drop_left' rfl]
    have h4 : 4 ≤ (putU32 v.length ++ (v ++ rest)).length := by
      simp [putU32]
    rw [if_pos h4, le32_getD_putU32_append v.length (v ++ rest) hv]
    have hvlen : v.length ≤ (putU32 v.length ++ (v ++ rest)).length - 4 := by
      simp [putU32]
    rw [if_pos hvlen, List.drop_left' (putU32_length v.length)]
    rw [List.take_left' rfl, List.drop_left' rfl, List.take_left' rfl]
    rfl
  | del k =>
    simp only [batchOpValid, decide_eq_true_eq] at h
    have e1 : encodeOp (batchOp.del k) ++ rest =
        1 :: (k.length % 256) :: (k.length / 256 % 256) ::
          (k.length / 65536 % 256) :: (k.length / 16777216 % 256) ::
          (k ++ rest) := by
      simp [encodeOp, putU32]
    rw [e1, decodeOperations, le32_putU32 k.length h]
    have hlen : k.length ≤ (k ++ rest).length := by simp
    rw [if_pos hlen, if_neg (by decide), if_pos rfl]
    rw [List.drop_left' rfl, List.take_left' rfl]
    rfl

theorem decode_encodeOps_append (ops : List batchOp) (rest : Bytes)
    (h : ∀ o ∈ ops, batchOpValid o = true) :
    decodeOperations (encodeOps ops ++ rest) =
      match decodeOperations rest with
      | Except.ok tail => Except.ok (ops.map toOperation ++ tail)
      | Except.error e => Except.error e := by
  induction ops with
  | nil =>
    have he : encodeOps ([] : List batchOp) ++ rest = rest := rfl
    rw [he]
    cases decodeOperations rest <;> rfl
  | cons o os ih =>
    have ho : batchOpValid o = true := h o (by simp)
    have hos : ∀ x ∈ os, batchOpValid x = true := fun x hx => h x (by simp [hx])
    have e1 : encodeOps (o :: os) ++ rest = encodeOp o ++ (encodeOps os ++ rest) := by
      simp [encodeOps]
    rw [e1, decode_encodeOp_cons o _ ho, ih hos]
    cases decodeOperations rest with
    | ok tail => simp
    | error e => rfl

/-- C2: encode-then-decode round-trip, for every ordered sequence of
set/delete operations with representable lengths. -/
theorem roundtrip_decode_encode (ops : List batchOp)
    (h : ∀ o ∈ ops, batchOpValid o = true) :
    decodeOperations (encodeOps ops) = Except.ok (ops.map toOperation) := by
  have h0 : decodeOperations [] = Except.ok [] := by rw [decodeOperations]
  have := decode_encodeOps_append ops [] h
  simp only [List.append_nil] at this
  rw [this, h0]
  simp

/-- Witness for C2 at a concrete batch exercising empty keys, empty values,
zero bytes and bytes above 127. -/
theorem roundtrip_decode_encode_witness :
    decodeOperations
        (encodeOps [batchOp.set [0, 255] [97, 0, 98], batchOp.del [],
          batchOp.set [] []]) =
      Except.ok
        [⟨0, [0, 255], [97, 0, 98]⟩, ⟨1, [], []⟩, ⟨0, [], []⟩] :=
  roundtrip_decode_encode
    [batchOp.set [0, 255] [97, 0, 98], batchOp.del [], batchOp.set [] []]
    (by decide)

theorem encodeOp_ne_nil (o : batchOp) : encodeOp o ≠ [] := by
  cases o <;> simp [encodeOp]

theorem encodeOps_cons_ne_nil (o : batchOp) (os : List batchOp) :
    encodeOps (o :: os) ≠ [] := by
  have : encodeOps (o :: os) = encodeOp o ++ encodeOps os := by simp [encodeOps]
  rw [this]
  cases o <;> simp [encodeOp]

theorem decode_dropLast_single (o : batchOp) (h : batchOpValid o = true) :
    ∃ msg, decodeOperations (encodeOp o).dropLast = Except.error msg := by
  cases o with
  | set k v =>
    simp only [batchOpValid, Bool.and_eq_true, decide_eq_true_eq] at h
    obtain ⟨hk, hv⟩ := h
    by_cases hv0 : v = []
    · subst hv0
      have e1 : (encodeOp (batchOp.set k [])).dropLast =
          0 :: (k.length % 256) :: (k.length / 256 % 256) ::
            (k.length / 65536 % 256) :: (k.length / 16777216 % 256) ::
            (k ++ [0, 0, 0]) := by
        have e0 : encodeOp (batchOp.set k []) =
            (0 :: (k.length % 256) :: (k.length / 256 % 256) ::
              (k.length / 65536 % 256) :: (k.length / 16777216 % 256) ::
              (k ++ [0, 0, 0])) ++ [0] := by
          simp [encodeOp, putU32]
        rw [e0, List.dropLast_concat]
      rw [e1, decodeOperations, le32_putU32 k.length hk]
      have hlen : k.length ≤ (k ++ [0, 0, 0]).length := by simp
      rw [if_pos hlen, if_pos rfl, List.drop_left' rfl]
      exact ⟨"malformed operation value length", by rw [if_neg (by simp)]⟩
    · have e1 : (encodeOp (batchOp.set k v)).dropLast =
          0 :: (k.length % 256) :: (k.length / 256 % 256) ::
            (k.length / 65536 % 256) :: (k.length / 16777216 % 256) ::
            (k ++ (putU32 v.length ++ v.dropLast)) := by
        have e0 : encodeOp (batchOp.set k v) =
            [0, k.length % 256, k.length / 256 % 256, k.length / 65536 % 256,
              k.length / 16777216 % 256] ++ (k ++ (putU32 v.length ++ v)) := by
          simp [encodeOp, putU32]
        rw [e0, List.dropLast_append_of_ne_nil _ (by simp [hv0]),
          List.dropLast_append_of_ne_nil _ (by simp [hv0]),
          List.dropLast_append_of_ne_nil _ hv0]
        simp
      rw [e1, decodeOperations, le32_putU32 k.length hk]
      have hlen : k.length ≤ (k ++ (putU32 v.length ++ v.dropLast)).length := by
        simp
      rw [if_pos hlen, if_pos rfl, List.drop_left' rfl]
      have h4 : 4 ≤ (putU32 v.length ++ v.dropLast).length := by simp [putU32]
      rw [if_pos h4, le32_getD_putU32_append v.length v.dropLast hv]
      refine ⟨"malformed operation value", ?_⟩
      rw [if_neg ?_]
      have hvpos : 1 ≤ v.length := by
        cases v with
        | nil => exact absurd rfl hv0
        | cons a t => simp
      simp only [List.length_append, putU32_length, List.length_dropLast]
      omega
  | del k =>
    simp only [batchOpValid, decide_eq_true_eq] at h
    by_cases hk0 : k = []
    · subst hk0
      refine ⟨"malformed operation key length", ?_⟩
      have e1 : (encodeOp (batchOp.del [])).dropLast = [1, 0, 0, 0] := by
        simp [encodeOp, putU32]
      rw [e1]
      simp [decodeOperations]
    · have e1 : (encodeOp (batchOp.del k)).dropLast =
          1 :: (k.length % 256) :: (k.length / 256 % 256) ::
            (k.length / 65536 % 256) :: (k.length / 16777216 % 256) ::
            k.dropLast := by
        have e0 : encodeOp (batchOp.del k) =
            [1, k.length % 256, k.length / 256 % 256, k.length / 65536 % 256,
              k.length / 16777216 % 256] ++ k := by
          simp [encodeOp, putU32]
        rw [e0, List.dropLast_append_of_ne_nil _ hk0]
        simp
      rw [e1, decodeOperations, le32_putU32 k.length h]
      refine ⟨"malformed operation key", ?_⟩
      rw [if_neg ?_]
      have hkpos : 1 ≤ k.length := by
        cases k with
        | nil => exact absurd rfl hk0
        | cons a t => simp
      simp only [List.length_dropLast]
      omega

theorem decode_dropLast_error (ops : List batchOp)
    (h : ∀ o ∈ ops, batchOpValid o = true) (hne : ops ≠ []) :
    ∃ msg, decodeOperations ((encodeOps ops).dropLast) = Except.error msg := by
  induction ops with
  | nil => exact absurd rfl hne
  | cons o os ih =>
    cases os with
    | nil =>
      have e1 : encodeOps [o] = encodeOp o := by simp [encodeOps]
      rw [e1]
      exact decode_dropLast_single o (h o (by simp))
    | cons o2 os2 =>
      have e1 : (encodeOps (o :: o2 :: os2)).dropLast =
          encodeOp o ++ (encodeOps (o2 :: os2)).dropLast := by
        have e0 : encodeOps (o :: o2 :: os2) =
            encodeOp o ++ encodeOps (o2 :: os2) := by simp [encodeOps]
        rw [e0, List.dropLast_append_of_ne_nil _ (encodeOps_cons_ne_nil o2 os2)]
      obtain ⟨msg, hmsg⟩ := ih (fun x hx => h x (by simp [hx])) (by simp)
      refine ⟨msg, ?_⟩
      rw [e1, decode_encodeOp_cons o _ (h o (by simp)), hmsg]

theorem decode_unknown_opcode (pre : List batchOp)
    (hpre : ∀ o ∈ pre, batchOpValid o = true) (c : Nat)
    (hc0 : c ≠ 0) (hc1 : c ≠ 1) (k suffix : Bytes) (hk : k.length < 2 ^ 32) :
    decodeOperations (encodeOps pre ++ (c :: (putU32 k.length ++ (k ++ suffix)))) =
      Except.error "unknown operation code" := by
  have hinner : decodeOperations (c :: (putU32 k.length ++ (k ++ suffix))) =
      Except.error "unknown operation code" := by
    have e1 : c :: (putU32 k.length ++ (k ++ suffix)) =
        c :: (k.length % 256) :: (k.length / 256 % 256) ::
          (k.length / 65536 % 256) :: (k.length / 16777216 % 256) ::
          (k ++ suffix) := by
      simp [putU32]
    rw [e1, decodeOperations, le32_putU32 k.length hk]
    have hlen : k.length ≤ (k ++ suffix).length := by simp
    rw [if_pos hlen, if_neg hc0, if_neg hc1]
  rw [decode_encodeOps_append pre _ hpre, hinner]

theorem decode_ok_opcodes (data : Bytes) :
    ∀ ops, decodeOperations data = Except.ok ops → ∀ o ∈ ops, o.op = 0 ∨ o.op = 1 := by
  induction data using decodeOperations.induct with
  | case1 =>
    intro ops h o ho
    rw [decodeOperations] at h
    cases h
    simp at ho
  | case2 k0 k1 k2 k3 r1 h1 h2 h3 ops1 hrec ih =>
    intro ops h o ho
    rw [decodeOperations, if_pos h1, if_pos rfl, if_pos h2, if_pos h3, hrec] at h
    cases h
    rcases List.mem_cons.mp ho with rfl | ho
    · exact Or.inl rfl
    · exact ih ops1 hrec o ho
  | case3 k0 k1 k2 k3 r1 h1 h2 h3 e herr ih =>
    intro ops h o ho
    rw [decodeOperations, if_pos h1, if_pos rfl, if_pos h2, if_pos h3, herr] at h
    cases h
  | case4 k0 k1 k2 k3 r1 h1 h2 h3 =>
    intro ops h o ho
    rw [decodeOperations, if_pos h1, if_pos rfl, if_pos h2, if_neg h3] at h
    cases h
  | case5 k0 k1 k2 k3 r1 h1 h2 =>
    intro ops h o ho
    rw [decodeOperations, if_pos h1, if_pos rfl, if_neg h2] at h
    cases h
  | case6 k0 k1 k2 k3 r1 h1 ops1 hrec h10 ih =>
    intro ops h o ho
    rw [decodeOperations, if_pos h1, if_neg h10, if_pos rfl, hrec] at h
    cases h
    rcases List.mem_cons.mp ho with rfl | ho
    · exact Or.inr rfl
    · exact ih ops1 hrec o ho
  | case7 k0 k1 k2 k3 r1 h1 e herr h10 ih =>
    intro ops h o ho
    rw [decodeOperations, if_pos h1, if_neg h10, if_pos rfl, herr] at h
    cases h
  | case8 op k0 k1 k2 k3 r1 h1 hop0 hop1 =>
    intro ops h o ho
    rw [decodeOperations, if_pos h1, if_neg hop0, if_neg hop1] at h
    cases h
  | case9 op k0 k1 k2 k3 r1 h1 =>
    intro ops h o ho
    rw [decodeOperations, if_neg h1] at h
    cases h
  | case10 head tail hne =>
    intro ops h o ho
    match tail, hne with
    | [], _ => simp [decodeOperations] at h
    | [a], _ => simp [decodeOperations] at h
    | [a, b], _ => simp [decodeOperations] at h
    | [a, b, c], _ => simp [decodeOperations] at h
    | a :: b :: c :: d :: t, hne => exact absurd rfl (fun x => hne a b c d t x)

/-! ## Store model

The two engines (BadgerDB, SlateDB) are external collaborators; per spec
section 4.1 both expose identical key-value semantics, modelled here as an
association list of key/value pairs. Only the code of `skyshelve.go`
(the `Apply` loops, the registry, the boundary entry points) is embedded
from the source. -/

/-- Association-list lookup (first match), modelling a map read. -/
def alookup {β : Type} : List (Nat × β) → Nat → Option β
  | [], _ => none
  | (a, b) :: rest, x => if a = x then some b else alookup rest x

/-- Association-list update of an existing entry. -/
def aset {β : Type} : List (Nat × β) → Nat → β → List (Nat × β)
  | [], x, w => [(x, w)]
  | (a, b) :: rest, x, w =>
    if a = x then (x, w) :: rest else (a, b) :: aset rest x w

/-- Association-list removal, modelling `delete(handles, id)`. -/
def adel {β : Type} : List (Nat × β) → Nat → List (Nat × β)
  | [], _ => []
  | (a, b) :: rest, x => if a = x then adel rest x else (a, b) :: adel rest x

/-- Lookup in the modelled key-value store contents. -/
def kvGet : List (Bytes × Bytes) → Bytes → Option Bytes
  | [], _ => none
  | (a, b) :: rest, x => if a = x then some b else kvGet rest x

/-- Write to the modelled key-value store contents. -/
def kvSet : List (Bytes × Bytes) → Bytes → Bytes → List (Bytes × Bytes)
  | [], x, w => [(x, w)]
  | (a, b) :: rest, x, w =>
    if a = x then (x, w) :: rest else (a, b) :: kvSet rest x w

/-- Delete from the modelled key-value store contents (idempotent). -/
def kvDelete : List (Bytes × Bytes) → Bytes → List (Bytes × Bytes)
  | [], _ => []
  | (a, b) :: rest, x => if a = x then kvDelete rest x else (a, b) :: kvDelete rest x

/-- `badgerStore.Apply`: one transaction over the ops; opcode 0 writes,
opcode 1 deletes (a delete of an absent key is skipped, not an error),
any other opcode aborts with an error — the transaction is then
discarded, so the error result carries no contents change. -/
def badgerApplyOps (m : List (Bytes × Bytes)) :
    List operation → Except String (List (Bytes × Bytes))
  | [] => Except.ok m
  | o :: rest =>
    if o.op = 0 then badgerApplyOps (kvSet m o.key o.value) rest
    else if o.op = 1 then badgerApplyOps (kvDelete m o.key) rest
    else Except.error "unknown operation code"

/-- The batch-building loop of `slateStore.Apply`: validates each opcode
(`Put` for 0, `Delete` for 1, error otherwise) before anything is
written. -/
def slateBuildBatch : List operation → Except String (List operation)
  | [] => Except.ok []
  | o :: rest =>
    if o.op = 0 ∨ o.op = 1 then
      match slateBuildBatch rest with
      | Except.ok batch => Except.ok (o :: batch)
      | Except.error e => Except.error e
    else Except.error "unknown operation code"

/-- `slateStore.Apply`: build the write batch, then commit it with one
`Write` (modelled as a fold over the batch entries). -/
def slateApplyOps (m : List (Bytes × Bytes)) (ops : List operation) :
    Except String (List (Bytes × Bytes)) :=
  match slateBuildBatch ops with
  | Except.ok batch =>
      Except.ok (batch.foldl
        (fun acc o => if o.op = 0 then kvSet acc o.key o.value else kvDelete acc o.key) m)
  | Except.error e => Except.error e

theorem badgerApplyOps_ok_of_opcodes (ops : List operation) :
    ∀ m, (∀ o ∈ ops, o.op = 0 ∨ o.op = 1) →
      ∃ m', badgerApplyOps m ops = Except.ok m' := by
  induction ops with
  | nil => intro m _; exact ⟨m, rfl⟩
  | cons o rest ih =>
    intro m h
    rcases h o (by simp) with h0 | h1
    · obtain ⟨m', hm'⟩ := ih (kvSet m o.key o.value) (fun x hx => h x (by simp [hx]))
      exact ⟨m', by rw [badgerApplyOps, if_pos h0]; exact hm'⟩
    · obtain ⟨m', hm'⟩ := ih (kvDelete m o.key) (fun x hx => h x (by simp [hx]))
      by_cases h0 : o.op = 0
      · obtain ⟨m'', hm''⟩ := ih (kvSet m o.key o.value) (fun x hx => h x (by simp [hx]))
        exact ⟨m'', by rw [badgerApplyOps, if_pos h0]; exact hm''⟩
      · exact ⟨m', by rw [badgerApplyOps, if_neg h0, if_pos h1]; exact hm'⟩

theorem slateBuildBatch_ok_of_opcodes (ops : List operation)
    (h : ∀ o ∈ ops, o.op = 0 ∨ o.op = 1) :
    ∃ batch, slateBuildBatch ops = Except.ok batch := by
  induction ops with
  | nil => exact ⟨[], rfl⟩
  | cons o rest ih =>
    obtain ⟨batch, hb⟩ := ih (fun x hx => h x (by simp [hx]))
    refine ⟨o :: batch, ?_⟩
    rw [slateBuildBatch, if_pos (h o (by simp)), hb]

/-- C10: every operation list that `decodeOperations` accepts contains
only opcodes 0 (set) and 1 (delete); consequently the
`unknown operation code` branch of both backends' `Apply` loops can
never fire on a decoded batch. -/
theorem decoded_batch_opcodes_valid (data : Bytes) (ops : List operation)
    (h : decodeOperations data = Except.ok ops) :
    (∀ o ∈ ops, o.op = 0 ∨ o.op = 1) ∧
      (∀ m, badgerApplyOps m ops ≠ Except.error "unknown operation code") ∧
      (∀ m, slateApplyOps m ops ≠ Except.error "unknown operation code") := by
  have hops := decode_ok_opcodes data ops h
  refine ⟨hops, fun m hbad => ?_, fun m hbad => ?_⟩
  · obtain ⟨m', hm'⟩ := badgerApplyOps_ok_of_opcodes ops m hops
    rw [hm'] at hbad
    cases hbad
  · obtain ⟨batch, hb⟩ := slateBuildBatch_ok_of_opcodes ops hops
    rw [slateApplyOps, hb] at hbad
    cases hbad

/-- Witness for C10 at a concrete decoded buffer: one set record and one
delete record. -/
theorem decoded_batch_opcodes_valid_witness :
    (∀ o ∈ [(⟨0, [7], [8]⟩ : operation), ⟨1, [7], []⟩], o.op = 0 ∨ o.op = 1) ∧
      (∀ m, badgerApplyOps m [(⟨0, [7], [8]⟩ : operation), ⟨1, [7], []⟩] ≠
        Except.error "unknown operation code") ∧
      (∀ m, slateApplyOps m [(⟨0, [7], [8]⟩ : operation), ⟨1, [7], []⟩] ≠
        Except.error "unknown operation code") :=
  decoded_batch_opcodes_valid
    (encodeOps [batchOp.set [7] [8], batchOp.del [7]])
    [⟨0, [7], [8]⟩, ⟨1, [7], []⟩]
    (roundtrip_decode_encode [batchOp.set [7] [8], batchOp.del [7]] (by decide))

/-! ## Handle registry and boundary entry points -/

/-- A live store instance: `sid` is the model's instance identity (which
native database the entry wraps), `contents` its key-value state, and
`closeErr` the outcome the native `Close` call would report. -/
structure StoreInst where
  sid : Nat
  contents : List (Bytes × Bytes)
  closeErr : Option String
deriving DecidableEq, Repr

/-- The process-wide mutable state of `skyshelve.go`: the handle table,
the `nextID` counter, and the `lastError` message (empty = cleared).
`nextID` is a Go `uintptr`; its 2^64 wrap-around is unreachable in a
process lifetime and is not modelled. -/
structure GState where
  handles : List (Nat × StoreInst)
  nextID : Nat
  lastError : String
deriving DecidableEq, Repr

/-- `setError`: records the message and returns -1 on an error, clears
the message and returns 0 on success. -/
def setError (e : Option String) (g : GState) : Int × GState :=
  match e with
  | some msg => (-1, { g with lastError := msg })
  | none => (0, { g with lastError := "" })

/-- `storeHandle`: assign the next id, advance the counter, register. -/
def storeHandle (st : StoreInst) (g : GState) : Nat × GState :=
  (g.nextID,
    { g with handles := (g.nextID, st) :: g.handles, nextID := g.nextID + 1 })

/-- `getHandle`: registry lookup. -/
def getHandle (id : Nat) (g : GState) : Except String StoreInst :=
  match alookup g.handles id with
  | some st => Except.ok st
  | none => Except.error "invalid handle"

/-- `deleteHandle`: remove the registry entry. -/
def deleteHandle (id : Nat) (g : GState) : GState :=
  { g with handles := adel g.handles id }

/-- A buffer result crossing the C boundary: a null pointer, or an
allocation holding `bytes` with the out-parameter set to `len` (a
zero-length read is a non-null 1-byte allocation with `len = 0`). -/
inductive CBuf where
  | null : CBuf
  | buf (bytes : Bytes) (len : Nat) : CBuf
deriving DecidableEq, Repr

/-- `appendEntry`: scan-result wire format of one entry. -/
def appendEntry (buf key value : Bytes) : Bytes :=
  buf ++ putU32 key.length ++ putU32 value.length ++ key ++ value

namespace Boundary

/-- Exported `Open`: `res` is the outcome of `openStore` (the native
open of the selected engine); failure reports the error and returns
handle 0, success registers the store and returns its fresh id. -/
def Open (res : Except String StoreInst) (g : GState) : Nat × GState :=
  match res with
  | Except.error e => (0, (setError (some e) g).2)
  | Except.ok st => storeHandle st (setError none g).2

/-- Exported `Close`: look up, close natively, and only on native
success remove the registry entry. -/
def Close (h : Nat) (g : GState) : Int × GState :=
  match getHandle h g with
  | Except.error e => setError (some e) g
  | Except.ok st =>
    match st.closeErr with
    | some e => setError (some e) g
    | none => setError none (deleteHandle h g)

/-- Exported `Set`. -/
def Set (h : Nat) (key value : Bytes) (g : GState) : Int × GState :=
  match getHandle h g with
  | Except.error e => setError (some e) g
  | Except.ok st =>
      let st' : StoreInst := { st with contents := kvSet st.contents key value }
      setError none { g with handles := aset g.handles h st' }

/-- Exported `Get`: `mallocOk` models the outcome of `C.malloc`. -/
def Get (h : Nat) (key : Bytes) (mallocOk : Bool) (g : GState) : CBuf × GState :=
  match getHandle h g with
  | Except.error e => (CBuf.null, (setError (some e) g).2)
  | Except.ok st =>
    match kvGet st.contents key with
    | none => (CBuf.null, (setError (some "Key not found") g).2)
    | some data =>
      if data.length = 0 then
        if mallocOk then (CBuf.buf [] 0, (setError none g).2)
        else (CBuf.null, (setError (some "malloc failed") g).2)
      else
        if mallocOk then (CBuf.buf data data.length, (setError none g).2)
        else (CBuf.null, (setError (some "malloc failed") g).2)

/-- Exported `Delete`. -/
def Delete (h : Nat) (key : Bytes) (g : GState) : Int × GState :=
  match getHandle h g with
  | Except.error e => setError (some e) g
  | Except.ok st =>
      let st' : StoreInst := { st with contents := kvDelete st.contents key }
      setError none { g with handles := aset g.handles h st' }

/-- Exported `Sync` (the native flush is modelled as succeeding). -/
def Sync (h : Nat) (g : GState) : Int × GState :=
  match getHandle h g with
  | Except.error e => setError (some e) g
  | Except.ok _ => setError none g

/-- Exported `Scan`: iterate the store, build the scan-result buffer; an
empty result returns a null pointer with the error state cleared. -/
def Scan (h : Nat) (pfx : Bytes) (mallocOk : Bool) (g : GState) : CBuf × GState :=
  match getHandle h g with
  | Except.error e => (CBuf.null, (setError (some e) g).2)
  | Except.ok st =>
    let entries := st.contents.filter (fun kv => pfx.isPrefixOf kv.1)
    let buffer := entries.foldl (fun b kv => appendEntry b kv.1 kv.2) []
    if buffer.length = 0 then (CBuf.null, (setError none g).2)
    else if mallocOk then (CBuf.buf buffer buffer.length, (setError none g).2)
    else (CBuf.null, (setError (some "malloc failed") g).2)

/-- Exported `Apply`: decode first; only a fully decoded batch reaches
the store's `Apply` (whose transaction is all-or-nothing). -/
def Apply (h : Nat) (data : Bytes) (g : GState) : Int × GState :=
  match getHandle h g with
  | Except.error e => setError (some e) g
  | Except.ok st =>
    match decodeOperations data with
    | Except.error e => setError (some e) g
    | Except.ok ops =>
      match badgerApplyOps st.contents ops with
      | Except.error e => setError (some e) g
      | Except.ok m' =>
          let st' : StoreInst := { st with contents := m' }
          setError none { g with handles := aset g.handles h st' }

end Boundary

/-- One caller-visible boundary call. -/
inductive Call where
  | openCall (res : Except String StoreInst) : Call
  | closeCall (h : Nat) : Call
  | setCall (h : Nat) (key value : Bytes) : Call
  | getCall (h : Nat) (key : Bytes) (mallocOk : Bool) : Call
  | delCall (h : Nat) (key : Bytes) : Call
  | syncCall (h : Nat) : Call
  | scanCall (h : Nat) (pfx : Bytes) (mallocOk : Bool) : Call
  | applyCall (h : Nat) (data : Bytes) : Call

/-- State transition of one boundary call (result discarded). -/
def step (g : GState) : Call → GState
  | .openCall res => (Boundary.Open res g).2
  | .closeCall h => (Boundary.Close h g).2
  | .setCall h k v => (Boundary.Set h k v g).2
  | .getCall h k m => (Boundary.Get h k m g).2
  | .delCall h k => (Boundary.Delete h k g).2
  | .syncCall h => (Boundary.Sync h g).2
  | .scanCall h p m => (Boundary.Scan h p m g).2
  | .applyCall h d => (Boundary.Apply h d g).2

/-- A whole trace of boundary calls. -/
def run (g : GState) : List Call → GState
  | [] => g
  | c :: cs => run (step g c) cs

/-- The registry invariant: ids start at 1, all registered ids are below
the counter, and no id is registered twice. -/
def registryInv (hs : List (Nat × StoreInst)) (n : Nat) : Prop :=
  1 ≤ n ∧ (∀ p ∈ hs, 1 ≤ p.1 ∧ p.1 < n) ∧ (hs.map Prod.fst).Nodup

def StateInv (g : GState) : Prop := registryInv g.handles g.nextID

/-- The state of a fresh process: empty table, counter at 1. -/
def initState : GState := { handles := [], nextID := 1, lastError := "" }

/-! ## Registry lemmas -/

theorem alookup_aset_self {β : Type} (l : List (Nat × β)) (k : Nat) (w : β) :
    alookup (aset l k w) k = some w := by
  induction l with
  | nil => simp [aset, alookup]
  | cons p rest ih =>
    obtain ⟨a, b⟩ := p
    by_cases hak : a = k
    · subst hak
      simp [aset, alookup]
    · simp [aset, alookup, hak, ih]

theorem alookup_aset_ne {β : Type} (l : List (Nat × β)) (k : Nat) (w : β)
    (k' : Nat) (hne : k ≠ k') : alookup (aset l k w) k' = alookup l k' := by
  induction l with
  | nil => simp [aset, alookup, fun h => hne h]
  | cons p rest ih =>
    obtain ⟨a, b⟩ := p
    by_cases hak : a = k
    · subst hak
      simp [aset, alookup, hne]
    · by_cases hak' : a = k'
      · subst hak'
        simp [aset, alookup, hak]
      · simp [aset, alookup, hak, hak', ih]

theorem alookup_adel_self {β : Type} (l : List (Nat × β)) (k : Nat) :
    alookup (adel l k) k = none := by
  induction l with
  | nil => simp [adel, alookup]
  | cons p rest ih =>
    obtain ⟨a, b⟩ := p
    by_cases hak : a = k
    · subst hak
      simp [adel, ih]
    · simp [adel, alookup, hak, ih]

theorem alookup_adel_ne {β : Type} (l : List (Nat × β)) (k : Nat) (k' : Nat)
    (hne : k ≠ k') : alookup (adel l k) k' = alookup l k' := by
  induction l with
  | nil => simp [adel, alookup]
  | cons p rest ih =>
    obtain ⟨a, b⟩ := p
    by_cases hak : a = k
    · subst hak
      simp [adel, alookup, hne, ih]
    · simp [adel, alookup, hak, ih]

theorem alookup_mem {β : Type} (l : List (Nat × β)) (k : Nat) (b : β)
    (h : alookup l k = some b) : (k, b) ∈ l := by
  induction l with
  | nil => simp [alookup] at h
  | cons p rest ih =>
    obtain ⟨a, b'⟩ := p
    by_cases hak : a = k
    · subst hak
      simp [alookup] at h
      simp [h]
    · simp [alookup, hak] at h
      simp [ih h]

theorem mem_aset_of {β : Type} (l : List (Nat × β)) (k : Nat) (w : β)
    (p : Nat × β) (hp : p ∈ aset l k w) : p = (k, w) ∨ p ∈ l := by
  induction l with
  | nil => simp [aset] at hp; simp [hp]
  | cons q rest ih =>
    obtain ⟨a, b⟩ := q
    by_cases hak : a = k
    · subst hak
      simp [aset] at hp
      rcases hp with hp | hp
      · exact Or.inl (by simp [hp])
      · exact Or.inr (by simp [hp])
    · simp [aset, hak] at hp
      rcases hp with hp | hp
      · exact Or.inr (by simp [hp])
      · rcases ih hp with h' | h'
        · exact Or.inl h'
        · exact Or.inr (by simp [h'])

theorem aset_map_fst {β : Type} (l : List (Nat × β)) (k : Nat) (w : β)
    (b : β) (h : alookup l k = some b) :
    (aset l k w).map Prod.fst = l.map Prod.fst := by
  induction l with
  | nil => simp [alookup] at h
  | cons p rest ih =>
    obtain ⟨a, b'⟩ := p
    by_cases hak : a = k
    · subst hak
      simp [aset]
    · simp [alookup, hak] at h
      simp [aset, hak, ih h]

theorem adel_sublist {β : Type} (l : List (Nat × β)) (k : Nat) :
    List.Sublist (adel l k) l := by
  induction l with
  | nil => simp [adel]
  | cons p rest ih =>
    obtain ⟨a, b⟩ := p
    by_cases hak : a = k
    · simp [adel, hak]
      exact ih.cons _
    · simp [adel, hak]
      exact ih

theorem mem_adel_of {β : Type} (l : List (Nat × β)) (k : Nat)
    (p : Nat × β) (hp : p ∈ adel l k) : p ∈ l :=
  (adel_sublist l k).subset hp

theorem registryInv_aset (g : GState) (h : Nat) (st₀ st' : StoreInst)
    (hInv : StateInv g) (hlk : alookup g.handles h = some st₀) :
    registryInv (aset g.handles h st') g.nextID := by
  obtain ⟨h1, h2, h3⟩ := hInv
  have hmem := alookup_mem _ _ _ hlk
  refine ⟨h1, ?_, ?_⟩
  · intro p hp
    rcases mem_aset_of _ _ _ _ hp with rfl | hp
    · exact h2 (h, st₀) hmem
    · exact h2 p hp
  · rw [aset_map_fst _ _ _ _ hlk]
    exact h3

theorem registryInv_adel (g : GState) (h : Nat) (hInv : StateInv g) :
    registryInv (adel g.handles h) g.nextID := by
  obtain ⟨h1, h2, h3⟩ := hInv
  refine ⟨h1, fun p hp => h2 p (mem_adel_of _ _ _ hp), ?_⟩
  exact h3.sublist ((adel_sublist g.handles h).map Prod.fst)

theorem registryInv_storeHandle (g : GState) (st : StoreInst)
    (hInv : StateInv g) :
    registryInv ((g.nextID, st) :: g.handles) (g.nextID + 1) := by
  obtain ⟨h1, h2, h3⟩ := hInv
  refine ⟨by omega, ?_, ?_⟩
  · intro p hp
    rcases List.mem_cons.mp hp with rfl | hp
    · exact ⟨h1, by omega⟩
    · have := h2 p hp
      omega
  · refine List.Nodup.cons ?_ h3
    intro hmem
    rcases List.mem_map.mp hmem with ⟨p, hp, hfst⟩
    have := (h2 p hp).2
    omega

theorem setError_handles (e : Option String) (g : GState) :
    (setError e g).2.handles = g.handles := by cases e <;> rfl

theorem setError_nextID (e : Option String) (g : GState) :
    (setError e g).2.nextID = g.nextID := by cases e <;> rfl

/-- Every boundary call either leaves the registry untouched, registers a
fresh id, overwrites one registered entry with a same-identity store, or
(successful close only) removes one registered entry. -/
theorem step_cases (g : GState) (c : Call) :
    ((step g c).handles = g.handles ∧ (step g c).nextID = g.nextID) ∨
    (∃ st, (step g c).handles = (g.nextID, st) :: g.handles ∧
      (step g c).nextID = g.nextID + 1) ∨
    (∃ h st₀ st', alookup g.handles h = some st₀ ∧ st'.sid = st₀.sid ∧
      (step g c).handles = aset g.handles h st' ∧
      (step g c).nextID = g.nextID) ∨
    (∃ h st₀, alookup g.handles h = some st₀ ∧ st₀.closeErr = none ∧
      c = Call.closeCall h ∧ (step g c).handles = adel g.handles h ∧
      (step g c).nextID = g.nextID) := by
  cases c with
  | openCall res =>
    cases res with
    | error e =>
      left
      constructor <;> simp [step, Boundary.Open, setError]
    | ok st =>
      right; left
      exact ⟨st, by simp [step, Boundary.Open, storeHandle, setError],
        by simp [step, Boundary.Open, storeHandle, setError]⟩
  | closeCall h =>
    cases hl : alookup g.handles h with
    | none =>
      left
      constructor <;> simp [step, Boundary.Close, getHandle, hl, setError]
    | some st =>
      cases hc : st.closeErr with
      | some e =>
        left
        constructor <;> simp [step, Boundary.Close, getHandle, hl, hc, setError]
      | none =>
        right; right; right
        exact ⟨h, st, hl, hc, rfl,
          by simp [step, Boundary.Close, getHandle, hl, hc, setError, deleteHandle],
          by simp [step, Boundary.Close, getHandle, hl, hc, setError, deleteHandle]⟩
  | setCall h k v =>
    cases hl : alookup g.handles h with
    | none =>
      left
      constructor <;> simp [step, Boundary.Set, getHandle, hl, setError]
    | some st =>
      right; right; left
      exact ⟨h, st, { st with contents := kvSet st.contents k v }, hl, rfl,
        by simp [step, Boundary.Set, getHandle, hl, setError],
        by simp [step, Boundary.Set, getHandle, hl, setError]⟩
  | getCall h k m =>
    cases hl : alookup g.handles h with
    | none =>
      left
      constructor <;> simp [step, Boundary.Get, getHandle, hl, setError]
    | some st =>
      cases hv : kvGet st.contents k with
      | none =>
        left
        constructor <;> simp [step, Boundary.Get, getHandle, hl, hv, setError]
      | some data =>
        left
        constructor
        all_goals
          (simp only [step, Boundary.Get, getHandle, hl, hv];
            split <;> split <;> simp [setError])
  | delCall h k =>
    cases hl : alookup g.handles h with
    | none =>
      left
      constructor <;> simp [step, Boundary.Delete, getHandle, hl, setError]
    | some st =>
      right; right; left
      exact ⟨h, st, { st with contents := kvDelete st.contents k }, hl, rfl,
        by simp [step, Boundary.Delete, getHandle, hl, setError],
        by simp [step, Boundary.Delete, getHandle, hl, setError]⟩
  | syncCall h =>
    cases hl : alookup g.handles h with
    | none =>
      left
      constructor <;> simp [step, Boundary.Sync, getHandle, hl, setError]
    | some st =>
      left
      constructor <;> simp [step, Boundary.Sync, getHandle, hl, setError]
  | scanCall h p m =>
    cases hl : alookup g.handles h with
    | none =>
      left
      constructor <;> simp [step, Boundary.Scan, getHandle, hl, setError]
    | some st =>
      left
      constructor
      all_goals
        (simp only [step, Boundary.Scan, getHandle, hl];
          split <;> [skip; split] <;> simp [setError])
  | applyCall h d =>
    cases hl : alookup g.handles h with
    | none =>
      left
      constructor <;> simp [step, Boundary.Apply, getHandle, hl, setError]
    | some st =>
      cases hd : decodeOperations d with
      | error e =>
        left
        constructor <;> simp [step, Boundary.Apply, getHandle, hl, hd, setError]
      | ok ops =>
        cases hb : badgerApplyOps st.contents ops with
        | error e =>
          left
          constructor <;>
            simp [step, Boundary.Apply, getHandle, hl, hd, hb, setError]
        | ok m' =>
          right; right; left
          exact ⟨h, st, { st with contents := m' }, hl, rfl,
            by simp [step, Boundary.Apply, getHandle, hl, hd, hb, setError],
            by simp [step, Boundary.Apply, getHandle, hl, hd, hb, setError]⟩

theorem StateInv_step (g : GState) (c : Call) (hInv : StateInv g) :
    StateInv (step g c) := by
  have hsc := step_cases g c
  show registryInv (step g c).handles (step g c).nextID
  rcases hsc with ⟨hh, hn⟩ | ⟨st, hh, hn⟩ | ⟨h, st₀, st', hlk, _, hh, hn⟩ |
      ⟨h, st₀, hlk, _, _, hh, hn⟩ <;> rw [hh, hn]
  · exact hInv
  · exact registryInv_storeHandle g st hInv
  · exact registryInv_aset g h st₀ st' hInv hlk
  · exact registryInv_adel g h hInv

theorem step_nextID_mono (g : GState) (c : Call) :
    g.nextID ≤ (step g c).nextID := by
  rcases step_cases g c with ⟨_, hn⟩ | ⟨_, _, hn⟩ | ⟨_, _, _, _, _, _, hn⟩ |
      ⟨_, _, _, _, _, _, hn⟩ <;> omega

theorem step_absent (g : GState) (c : Call) (h : Nat)
    (habs : alookup g.handles h = none) (hlt : h < g.nextID) :
    alookup (step g c).handles h = none ∧ h < (step g c).nextID := by
  rcases step_cases g c with ⟨hh, hn⟩ | ⟨st, hh, hn⟩ |
      ⟨h', st₀, st', hlk, _, hh, hn⟩ | ⟨h', st₀, hlk, _, _, hh, hn⟩ <;>
    rw [hh, hn]
  · exact ⟨habs, hlt⟩
  · refine ⟨?_, by omega⟩
    simp only [alookup]
    rw [if_neg (by omega)]
    exact habs
  · have hne : h' ≠ h := by
      intro he
      rw [he, habs] at hlk
      cases hlk
    rw [alookup_aset_ne _ _ _ _ hne]
    exact ⟨habs, hlt⟩
  · by_cases hne : h' = h
    · subst hne
      exact ⟨alookup_adel_self _ _, hlt⟩
    · rw [alookup_adel_ne _ _ _ hne]
      exact ⟨habs, hlt⟩

theorem run_absent (cs : List Call) (g : GState) (h : Nat)
    (habs : alookup g.handles h = none) (hlt : h < g.nextID) :
    alookup (run g cs).handles h = none ∧ h < (run g cs).nextID := by
  induction cs generalizing g with
  | nil => exact ⟨habs, hlt⟩
  | cons c cs ih =>
    obtain ⟨h1, h2⟩ := step_absent g c h habs hlt
    exact ih (step g c) h1 h2

theorem run_nextID_mono (cs : List Call) (g : GState) :
    g.nextID ≤ (run g cs).nextID := by
  induction cs generalizing g with
  | nil => exact le_refl _
  | cons c cs ih =>
    exact le_trans (step_nextID_mono g c) (ih (step g c))

theorem StateInv_run (cs : List Call) (g : GState) (hInv : StateInv g) :
    StateInv (run g cs) := by
  induction cs generalizing g with
  | nil => exact hInv
  | cons c cs ih => exact ih (step g c) (StateInv_step g c hInv)

/-- A registered handle's entry under any step that is not a successful
close of that handle: still registered, same store identity. -/
theorem step_present_sid (g : GState) (c : Call) (h : Nat) (st : StoreInst)
    (hInv : StateInv g) (hlk : alookup g.handles h = some st)
    (hnc : ¬(c = Call.closeCall h ∧ st.closeErr = none)) :
    ∃ st', alookup (step g c).handles h = some st' ∧ st'.sid = st.sid := by
  have hbound : h < g.nextID := (hInv.2.1 (h, st) (alookup_mem _ _ _ hlk)).2
  rcases step_cases g c with ⟨hh, _⟩ | ⟨st2, hh, _⟩ |
      ⟨h', st₀, st', hlk', hsid, hh, _⟩ | ⟨h', st₀, hlk', hcl, hc, hh, _⟩ <;>
    rw [hh]
  · exact ⟨st, hlk, rfl⟩
  · refine ⟨st, ?_, rfl⟩
    simp only [alookup]
    rw [if_neg (by omega)]
    exact hlk
  · by_cases hne : h' = h
    · subst hne
      rw [hlk] at hlk'
      cases hlk'
      exact ⟨st', alookup_aset_self _ _ _, hsid⟩
    · rw [alookup_aset_ne _ _ _ _ hne]
      exact ⟨st, hlk, rfl⟩
  · by_cases hne : h' = h
    · subst hne
      rw [hlk] at hlk'
      cases hlk'
      exact absurd ⟨hc, hcl⟩ hnc
    · rw [alookup_adel_ne _ _ _ hne]
      exact ⟨st, hlk, rfl⟩

/-- All seven handle-taking boundary operations fail with the
invalid-handle error when the handle is not registered. -/
theorem ops_fail_on_absent (g : GState) (h : Nat)
    (habs : alookup g.handles h = none) :
    (∀ k v, Boundary.Set h k v g = (-1, { g with lastError := "invalid handle" })) ∧
    (∀ k m, Boundary.Get h k m g = (CBuf.null, { g with lastError := "invalid handle" })) ∧
    (∀ k, Boundary.Delete h k g = (-1, { g with lastError := "invalid handle" })) ∧
    Boundary.Sync h g = (-1, { g with lastError := "invalid handle" }) ∧
    (∀ p m, Boundary.Scan h p m g = (CBuf.null, { g with lastError := "invalid handle" })) ∧
    (∀ d, Boundary.Apply h d g = (-1, { g with lastError := "invalid handle" })) ∧
    Boundary.Close h g = (-1, { g with lastError := "invalid handle" }) := by
  refine ⟨?_, ?_, ?_, ?_, ?_, ?_, ?_⟩ <;>
    simp [Boundary.Set, Boundary.Get, Boundary.Delete, Boundary.Sync,
      Boundary.Scan, Boundary.Apply, Boundary.Close, getHandle, habs, setError]

/-- C3: decoding is strict — dropping the final byte of any non-empty
valid batch encoding is rejected, any record with an opcode other than
0/1 is rejected, and on such inputs the boundary `Apply` fails without
handing anything to the store (its registry, hence every store's
contents, is untouched). -/
theorem decode_strict_malformed
    (ops : List batchOp) (hops : ∀ o ∈ ops, batchOpValid o = true)
    (hne : ops ≠ []) (pre : List batchOp)
    (hpre : ∀ o ∈ pre, batchOpValid o = true)
    (c : Nat) (hc0 : c ≠ 0) (hc1 : c ≠ 1) (k suffix : Bytes)
    (hk : k.length < 2 ^ 32) (g : GState) (h : Nat) (st : StoreInst)
    (hlk : alookup g.handles h = some st) :
    (∃ msg, decodeOperations ((encodeOps ops).dropLast) = Except.error msg) ∧
    decodeOperations (encodeOps pre ++ (c :: (putU32 k.length ++ (k ++ suffix)))) =
      Except.error "unknown operation code" ∧
    (Boundary.Apply h ((encodeOps ops).dropLast) g).1 = -1 ∧
    (Boundary.Apply h ((encodeOps ops).dropLast) g).2.handles = g.handles := by
  obtain ⟨msg, hmsg⟩ := decode_dropLast_error ops hops hne
  refine ⟨⟨msg, hmsg⟩, decode_unknown_opcode pre hpre c hc0 hc1 k suffix hk,
    ?_, ?_⟩ <;>
    simp [Boundary.Apply, getHandle, hlk, hmsg, setError]

/-- Witness for C3: a one-delete batch truncated by one byte, and a
record with opcode 2, against a registered handle. -/
theorem decode_strict_malformed_witness :
    (∃ msg, decodeOperations ((encodeOps [batchOp.del [5]]).dropLast) =
      Except.error msg) ∧
    decodeOperations (encodeOps [] ++ (2 :: (putU32 (List.length ([] : Bytes)) ++
      ([] ++ ([] : Bytes))))) = Except.error "unknown operation code" ∧
    (Boundary.Apply 1 ((encodeOps [batchOp.del [5]]).dropLast)
      ⟨[(1, ⟨10, [([1], [2])], none⟩)], 2, ""⟩).1 = -1 ∧
    (Boundary.Apply 1 ((encodeOps [batchOp.del [5]]).dropLast)
      ⟨[(1, ⟨10, [([1], [2])], none⟩)], 2, ""⟩).2.handles =
      GState.handles ⟨[(1, ⟨10, [([1], [2])], none⟩)], 2, ""⟩ :=
  decode_strict_malformed [batchOp.del [5]] (by decide) (by decide)
    [] (by decide) 2 (by decide) (by decide) [] [] (by decide)
    ⟨[(1, ⟨10, [([1], [2])], none⟩)], 2, ""⟩ 1 ⟨10, [([1], [2])], none⟩
    (by decide)

/-- C4: a batch buffer containing a record with an invalid opcode makes
the boundary `Apply` fail with the unknown-opcode error before any write:
the resulting state differs from the input state only in `lastError`, so
the store's key-value contents are completely unchanged. -/
theorem apply_invalid_opcode_no_effect
    (g : GState) (h : Nat) (st : StoreInst)
    (hlk : alookup g.handles h = some st) (pre : List batchOp)
    (hpre : ∀ o ∈ pre, batchOpValid o = true) (c : Nat)
    (hc0 : c ≠ 0) (hc1 : c ≠ 1) (k suffix : Bytes) (hk : k.length < 2 ^ 32) :
    Boundary.Apply h (encodeOps pre ++ (c :: (putU32 k.length ++ (k ++ suffix)))) g =
      (-1, { g with lastError := "unknown operation code" }) ∧
    alookup (Boundary.Apply h
        (encodeOps pre ++ (c :: (putU32 k.length ++ (k ++ suffix)))) g).2.handles h =
      some st := by
  have hd := decode_unknown_opcode pre hpre c hc0 hc1 k suffix hk
  constructor <;> simp [Boundary.Apply, getHandle, hlk, hd, setError]

/-- Witness for C4: a batch holding one valid set record followed by an
opcode-7 record, applied to a registered handle. -/
theorem apply_invalid_opcode_no_effect_witness :
    Boundary.Apply 1 (encodeOps [batchOp.set [3] [4]] ++
        (7 :: (putU32 (List.length ([9] : Bytes)) ++ ([9] ++ ([] : Bytes)))))
      ⟨[(1, ⟨10, [([1], [2])], none⟩)], 2, ""⟩ =
      (-1, { (⟨[(1, ⟨10, [([1], [2])], none⟩)], 2, ""⟩ : GState) with
        lastError := "unknown operation code" }) ∧
    alookup (Boundary.Apply 1 (encodeOps [batchOp.set [3] [4]] ++
        (7 :: (putU32 (List.length ([9] : Bytes)) ++ ([9] ++ ([] : Bytes)))))
      ⟨[(1, ⟨10, [([1], [2])], none⟩)], 2, ""⟩).2.handles 1 =
      some ⟨10, [([1], [2])], none⟩ :=
  apply_invalid_opcode_no_effect ⟨[(1, ⟨10, [([1], [2])], none⟩)], 2, ""⟩ 1
    ⟨10, [([1], [2])], none⟩ (by decide) [batchOp.set [3] [4]] (by decide)
    7 (by decide) (by decide) [9] [] (by decide)

/-- C5: handle lifecycle. A registered handle resolves (via `getHandle`,
used by every boundary operation) to exactly one live store instance;
any call that is not a successful `Close` of that handle preserves the
mapping and the instance identity; a failed native close leaves the
entry registered and reports the failure; a successful `Close` returns
0, unregisters the handle — and after any further trace of calls the
handle stays unregistered and all seven boundary operations on it fail
with the invalid-handle error. -/
theorem handle_lifecycle (g : GState) (h : Nat) (st : StoreInst)
    (hInv : StateInv g) (hlk : alookup g.handles h = some st) :
    getHandle h g = Except.ok st ∧
    (g.handles.map Prod.fst).count h = 1 ∧
    (∀ c, ¬(c = Call.closeCall h ∧ st.closeErr = none) →
      ∃ st', alookup (step g c).handles h = some st' ∧ st'.sid = st.sid) ∧
    (∀ e, st.closeErr = some e →
      Boundary.Close h g = (-1, { g with lastError := e })) ∧
    (st.closeErr = none →
      (Boundary.Close h g).1 = 0 ∧
      ∀ cs,
        alookup (run (Boundary.Close h g).2 cs).handles h = none ∧
        (∀ k v, Boundary.Set h k v (run (Boundary.Close h g).2 cs) =
          (-1, { run (Boundary.Close h g).2 cs with lastError := "invalid handle" })) ∧
        (∀ k m, Boundary.Get h k m (run (Boundary.Close h g).2 cs) =
          (CBuf.null, { run (Boundary.Close h g).2 cs with lastError := "invalid handle" })) ∧
        (∀ k, Boundary.Delete h k (run (Boundary.Close h g).2 cs) =
          (-1, { run (Boundary.Close h g).2 cs with lastError := "invalid handle" })) ∧
        Boundary.Sync h (run (Boundary.Close h g).2 cs) =
          (-1, { run (Boundary.Close h g).2 cs with lastError := "invalid handle" }) ∧
        (∀ p m, Boundary.Scan h p m (run (Boundary.Close h g).2 cs) =
          (CBuf.null, { run (Boundary.Close h g).2 cs with lastError := "invalid handle" })) ∧
        (∀ d, Boundary.Apply h d (run (Boundary.Close h g).2 cs) =
          (-1, { run (Boundary.Close h g).2 cs with lastError := "invalid handle" })) ∧
        Boundary.Close h (run (Boundary.Close h g).2 cs) =
          (-1, { run (Boundary.Close h g).2 cs with lastError := "invalid handle" })) := by
  have hmemfst : h ∈ g.handles.map Prod.fst :=
    List.mem_map.mpr ⟨(h, st), alookup_mem _ _ _ hlk, rfl⟩
  have hbound : h < g.nextID := (hInv.2.1 (h, st) (alookup_mem _ _ _ hlk)).2
  refine ⟨by simp [getHandle, hlk], List.count_eq_one_of_mem hInv.2.2 hmemfst,
    fun c hnc => step_present_sid g c h st hInv hlk hnc,
    fun e he => by simp [Boundary.Close, getHandle, hlk, he, setError], fun hcl => ?_⟩
  have hclose2 : (Boundary.Close h g).2 =
      { g with handles := adel g.handles h, lastError := "" } := by
    simp [Boundary.Close, getHandle, hlk, hcl, setError, deleteHandle]
  constructor
  · simp [Boundary.Close, getHandle, hlk, hcl, setError, deleteHandle]
  · intro cs
    have habs0 : alookup (Boundary.Close h g).2.handles h = none := by
      rw [hclose2]
      exact alookup_adel_self _ _
    have hlt0 : h < (Boundary.Close h g).2.nextID := by
      rw [hclose2]
      exact hbound
    obtain ⟨habs, _⟩ := run_absent cs (Boundary.Close h g).2 h habs0 hlt0
    obtain ⟨f1, f2, f3, f4, f5, f6, f7⟩ :=
      ops_fail_on_absent (run (Boundary.Close h g).2 cs) h habs
    exact ⟨habs, f1, f2, f3, f4, f5, f6, f7⟩

/-- Witness for C5 at a concrete one-handle state whose native close
succeeds. -/
theorem handle_lifecycle_witness :
    getHandle 1 ⟨[(1, ⟨10, [([1], [2])], none⟩)], 2, ""⟩ =
      Except.ok ⟨10, [([1], [2])], none⟩ ∧
    ((GState.handles ⟨[(1, ⟨10, [([1], [2])], none⟩)], 2, ""⟩).map Prod.fst).count 1 = 1 ∧
    (∀ c, ¬(c = Call.closeCall 1 ∧
        StoreInst.closeErr ⟨10, [([1], [2])], none⟩ = none) →
      ∃ st', alookup (step ⟨[(1, ⟨10, [([1], [2])], none⟩)], 2, ""⟩ c).handles 1 =
          some st' ∧ st'.sid = StoreInst.sid ⟨10, [([1], [2])], none⟩) ∧
    (∀ e, StoreInst.closeErr ⟨10, [([1], [2])], none⟩ = some e →
      Boundary.Close 1 ⟨[(1, ⟨10, [([1], [2])], none⟩)], 2, ""⟩ =
        (-1, { (⟨[(1, ⟨10, [([1], [2])], none⟩)], 2, ""⟩ : GState) with lastError := e })) ∧
    (StoreInst.closeErr ⟨10, [([1], [2])], none⟩ = none →
      (Boundary.Close 1 ⟨[(1, ⟨10, [([1], [2])], none⟩)], 2, ""⟩).1 = 0 ∧
      ∀ cs,
        alookup (run (Boundary.Close 1 ⟨[(1, ⟨10, [([1], [2])], none⟩)], 2, ""⟩).2 cs).handles 1 = none ∧
        (∀ k v, Boundary.Set 1 k v (run (Boundary.Close 1 ⟨[(1, ⟨10, [([1], [2])], none⟩)], 2, ""⟩).2 cs) =
          (-1, { run (Boundary.Close 1 ⟨[(1, ⟨10, [([1], [2])], none⟩)], 2, ""⟩).2 cs with lastError := "invalid handle" })) ∧
        (∀ k m, Boundary.Get 1 k m (run (Boundary.Close 1 ⟨[(1, ⟨10, [([1], [2])], none⟩)], 2, ""⟩).2 cs) =
          (CBuf.null, { run (Boundary.Close 1 ⟨[(1, ⟨10, [([1], [2])], none⟩)], 2, ""⟩).2 cs with lastError := "invalid handle" })) ∧
        (∀ k, Boundary.Delete 1 k (run (Boundary.Close 1 ⟨[(1, ⟨10, [([1], [2])], none⟩)], 2, ""⟩).2 cs) =
          (-1, { run (Boundary.Close 1 ⟨[(1, ⟨10, [([1], [2])], none⟩)], 2, ""⟩).2 cs with lastError := "invalid handle" })) ∧
        Boundary.Sync 1 (run (Boundary.Close 1 ⟨[(1, ⟨10, [([1], [2])], none⟩)], 2, ""⟩).2 cs) =
          (-1, { run (Boundary.Close 1 ⟨[(1, ⟨10, [([1], [2])], none⟩)], 2, ""⟩).2 cs with lastError := "invalid handle" }) ∧
        (∀ p m, Boundary.Scan 1 p m (run (Boundary.Close 1 ⟨[(1, ⟨10, [([1], [2])], none⟩)], 2, ""⟩).2 cs) =
          (CBuf.null, { run (Boundary.Close 1 ⟨[(1, ⟨10, [([1], [2])], none⟩)], 2, ""⟩).2 cs with lastError := "invalid handle" })) ∧
        (∀ d, Boundary.Apply 1 d (run (Boundary.Close 1 ⟨[(1, ⟨10, [([1], [2])], none⟩)], 2, ""⟩).2 cs) =
          (-1, { run (Boundary.Close 1 ⟨[(1, ⟨10, [([1], [2])], none⟩)], 2, ""⟩).2 cs with lastError := "invalid handle" })) ∧
        Boundary.Close 1 (run (Boundary.Close 1 ⟨[(1, ⟨10, [([1], [2])], none⟩)], 2, ""⟩).2 cs) =
          (-1, { run (Boundary.Close 1 ⟨[(1, ⟨10, [([1], [2])], none⟩)], 2, ""⟩).2 cs with lastError := "invalid handle" })) :=
  handle_lifecycle ⟨[(1, ⟨10, [([1], [2])], none⟩)], 2, ""⟩ 1
    ⟨10, [([1], [2])], none⟩ (by constructor <;> simp [registryInv]) (by decide)

/-- C6: handle ids are the values of a monotonically increasing counter
starting at 1: a successful `Open` returns the current counter (never
0, and 0 is returned exactly on failure, with nothing registered), the
very first open of a process returns 1, and any later successful open —
after an arbitrary trace of boundary calls — returns a strictly larger
id, so an id is never assigned to a second store in a process lifetime. -/
theorem handle_ids_unique (g : GState) (st st₂ : StoreInst) (e : String)
    (hInv : StateInv g) :
    (Boundary.Open (Except.ok st) g).1 = g.nextID ∧
    1 ≤ (Boundary.Open (Except.ok st) g).1 ∧
    (Boundary.Open (Except.ok st) g).1 ≠ 0 ∧
    alookup (Boundary.Open (Except.ok st) g).2.handles
      (Boundary.Open (Except.ok st) g).1 = some st ∧
    (Boundary.Open (Except.error e) g).1 = 0 ∧
    (Boundary.Open (Except.error e) g).2.handles = g.handles ∧
    (Boundary.Open (Except.ok st) initState).1 = 1 ∧
    (∀ cs, (Boundary.Open (Except.ok st₂)
        (run (Boundary.Open (Except.ok st) g).2 cs)).1 >
      (Boundary.Open (Except.ok st) g).1) := by
  have h1 : (Boundary.Open (Except.ok st) g).1 = g.nextID := by
    simp [Boundary.Open, storeHandle, setError]
  have hn : (Boundary.Open (Except.ok st) g).2.nextID = g.nextID + 1 := by
    simp [Boundary.Open, storeHandle, setError]
  refine ⟨h1, ?_, ?_, ?_, ?_, ?_, rfl, ?_⟩
  · rw [h1]
    exact hInv.1
  · rw [h1]
    have := hInv.1
    omega
  · rw [h1]
    simp [Boundary.Open, storeHandle, setError, alookup]
  · simp [Boundary.Open, setError]
  · simp [Boundary.Open, setError]
  · intro cs
    have hmono := run_nextID_mono cs (Boundary.Open (Except.ok st) g).2
    rw [hn] at hmono
    have hopen2 : (Boundary.Open (Except.ok st₂)
        (run (Boundary.Open (Except.ok st) g).2 cs)).1 =
        (run (Boundary.Open (Except.ok st) g).2 cs).nextID := by
      simp [Boundary.Open, storeHandle, setError]
    rw [hopen2, h1]
    omega

/-- Witness for C6 at a concrete one-handle state. -/
theorem handle_ids_unique_witness :
    (Boundary.Open (Except.ok ⟨11, [], none⟩)
        ⟨[(1, ⟨10, [([1], [2])], none⟩)], 2, ""⟩).1 =
      GState.nextID ⟨[(1, ⟨10, [([1], [2])], none⟩)], 2, ""⟩ ∧
    1 ≤ (Boundary.Open (Except.ok ⟨11, [], none⟩)
        ⟨[(1, ⟨10, [([1], [2])], none⟩)], 2, ""⟩).1 ∧
    (Boundary.Open (Except.ok ⟨11, [], none⟩)
        ⟨[(1, ⟨10, [([1], [2])], none⟩)], 2, ""⟩).1 ≠ 0 ∧
    alookup (Boundary.Open (Except.ok ⟨11, [], none⟩)
          ⟨[(1, ⟨10, [([1], [2])], none⟩)], 2, ""⟩).2.handles
        (Boundary.Open (Except.ok ⟨11, [], none⟩)
          ⟨[(1, ⟨10, [([1], [2])], none⟩)], 2, ""⟩).1 = some ⟨11, [], none⟩ ∧
    (Boundary.Open (Except.error "open failed")
        ⟨[(1, ⟨10, [([1], [2])], none⟩)], 2, ""⟩).1 = 0 ∧
    (Boundary.Open (Except.error "open failed")
        ⟨[(1, ⟨10, [([1], [2])], none⟩)], 2, ""⟩).2.handles =
      GState.handles ⟨[(1, ⟨10, [([1], [2])], none⟩)], 2, ""⟩ ∧
    (Boundary.Open (Except.ok ⟨11, [], none⟩) initState).1 = 1 ∧
    (∀ cs, (Boundary.Open (Except.ok ⟨12, [], none⟩)
        (run (Boundary.Open (Except.ok ⟨11, [], none⟩)
          ⟨[(1, ⟨10, [([1], [2])], none⟩)], 2, ""⟩).2 cs)).1 >
      (Boundary.Open (Except.ok ⟨11, [], none⟩)
        ⟨[(1, ⟨10, [([1], [2])], none⟩)], 2, ""⟩).1) :=
  handle_ids_unique ⟨[(1, ⟨10, [([1], [2])], none⟩)], 2, ""⟩
    ⟨11, [], none⟩ ⟨12, [], none⟩ "open failed"
    (by constructor <;> simp [registryInv])

/-- C7: the three outcomes of the boundary `Get`. Every error path —
invalid handle, key not found, allocation failure — returns the null
pointer and records a non-empty error message; a successful read of a
zero-length value returns a non-null zero-length buffer with the error
state cleared; a successful read of a non-empty value returns exactly
the stored bytes, the out-length equal to their count, and a cleared
error state. -/
theorem get_outcomes (g : GState) (h : Nat) (key : Bytes) :
    (alookup g.handles h = none →
      ∀ m, (Boundary.Get h key m g).1 = CBuf.null ∧
        (Boundary.Get h key m g).2.lastError = "invalid handle" ∧
        (Boundary.Get h key m g).2.lastError ≠ "") ∧
    (∀ st, alookup g.handles h = some st →
      (kvGet st.contents key = none →
        ∀ m, (Boundary.Get h key m g).1 = CBuf.null ∧
          (Boundary.Get h key m g).2.lastError = "Key not found" ∧
          (Boundary.Get h key m g).2.lastError ≠ "") ∧
      (∀ data, kvGet st.contents key = some data →
        ((Boundary.Get h key false g).1 = CBuf.null ∧
          (Boundary.Get h key false g).2.lastError = "malloc failed" ∧
          (Boundary.Get h key false g).2.lastError ≠ "") ∧
        (data = [] →
          Boundary.Get h key true g = (CBuf.buf [] 0, { g with lastError := "" })) ∧
        (data ≠ [] →
          Boundary.Get h key true g =
            (CBuf.buf data data.length, { g with lastError := "" })))) := by
  refine ⟨fun habs m => ?_, fun st hlk => ⟨fun hkv m => ?_, fun data hdata => ?_⟩⟩
  · refine ⟨?_, ?_, ?_⟩ <;> simp [Boundary.Get, getHandle, habs, setError]
  · refine ⟨?_, ?_, ?_⟩ <;> simp [Boundary.Get, getHandle, hlk, hkv, setError]
  · refine ⟨⟨?_, ?_, ?_⟩, fun hd0 => ?_, fun hd1 => ?_⟩
    · by_cases h0 : data.length = 0 <;>
        simp [Boundary.Get, getHandle, hlk, hdata, h0, setError]
    · by_cases h0 : data.length = 0 <;>
        simp [Boundary.Get, getHandle, hlk, hdata, h0, setError]
    · by_cases h0 : data.length = 0 <;>
        simp [Boundary.Get, getHandle, hlk, hdata, h0, setError]
    · subst hd0
      simp [Boundary.Get, getHandle, hlk, hdata, setError]
    · have h0 : ¬data.length = 0 := by
        cases data with
        | nil => exact absurd rfl hd1
        | cons a t => simp
      simp [Boundary.Get, getHandle, hlk, hdata, h0, setError]

/-- Witness for C7: a store holding an empty-valued key and a non-empty
key, probed through a registered and an unregistered handle, with and
without allocation success. -/
theorem get_outcomes_witness :
    ((Boundary.Get 2 [1] true ⟨[(1, ⟨10, [([1], [2, 3]), ([4], [])], none⟩)], 2, ""⟩).1 = CBuf.null ∧
      (Boundary.Get 2 [1] true ⟨[(1, ⟨10, [([1], [2, 3]), ([4], [])], none⟩)], 2, ""⟩).2.lastError = "invalid handle" ∧
      (Boundary.Get 2 [1] true ⟨[(1, ⟨10, [([1], [2, 3]), ([4], [])], none⟩)], 2, ""⟩).2.lastError ≠ "") ∧
    Boundary.Get 1 [4] true ⟨[(1, ⟨10, [([1], [2, 3]), ([4], [])], none⟩)], 2, ""⟩ =
      (CBuf.buf [] 0, { (⟨[(1, ⟨10, [([1], [2, 3]), ([4], [])], none⟩)], 2, ""⟩ : GState) with lastError := "" }) ∧
    Boundary.Get 1 [1] true ⟨[(1, ⟨10, [([1], [2, 3]), ([4], [])], none⟩)], 2, ""⟩ =
      (CBuf.buf [2, 3] 2, { (⟨[(1, ⟨10, [([1], [2, 3]), ([4], [])], none⟩)], 2, ""⟩ : GState) with lastError := "" }) ∧
    ((Boundary.Get 1 [1] false ⟨[(1, ⟨10, [([1], [2, 3]), ([4], [])], none⟩)], 2, ""⟩).1 = CBuf.null ∧
      (Boundary.Get 1 [1] false ⟨[(1, ⟨10, [([1], [2, 3]), ([4], [])], none⟩)], 2, ""⟩).2.lastError = "malloc failed" ∧
      (Boundary.Get 1 [1] false ⟨[(1, ⟨10, [([1], [2, 3]), ([4], [])], none⟩)], 2, ""⟩).2.lastError ≠ "") :=
  ⟨(get_outcomes ⟨[(1, ⟨10, [([1], [2, 3]), ([4], [])], none⟩)], 2, ""⟩ 2 [1]).1
      (by decide) true,
    (((get_outcomes ⟨[(1, ⟨10, [([1], [2, 3]), ([4], [])], none⟩)], 2, ""⟩ 1 [4]).2
      ⟨10, [([1], [2, 3]), ([4], [])], none⟩ (by decide)).2 [] (by decide)).2.1 rfl,
    (((get_outcomes ⟨[(1, ⟨10, [([1], [2, 3]), ([4], [])], none⟩)], 2, ""⟩ 1 [1]).2
      ⟨10, [([1], [2, 3]), ([4], [])], none⟩ (by decide)).2 [2, 3] (by decide)).2.2
      (by decide),
    (((get_outcomes ⟨[(1, ⟨10, [([1], [2, 3]), ([4], [])], none⟩)], 2, ""⟩ 1 [1]).2
      ⟨10, [([1], [2, 3]), ([4], [])], none⟩ (by decide)).2 [2, 3] (by decide)).1⟩

/-! ## Prefix scan range (`prefixRange` / `nextPrefix` of the source,
embedded as `pfxRange` / `nextPfx`) -/

/-- Byte-wise lexicographic strict order on byte strings (the key order
of both engines' iterators). -/
def lexLt : Bytes → Bytes → Bool
  | _, [] => false
  | [], _ :: _ => true
  | a :: as, b :: bs => if a < b then true else if a = b then lexLt as bs else false

/-- The loop of the source's `nextPrefix`, walking the copied bytes from
the last one towards the first: increment (a Go `byte` wraps modulo
256); stop at the first byte that did not wrap; if every byte wraps,
report "no upper bound". Operates on the reversed byte list. -/
def incBytesRev : Bytes → Option Bytes
  | [] => none
  | b :: rest =>
    if (b + 1) % 256 ≠ 0 then some (((b + 1) % 256) :: rest)
    else
      match incBytesRev rest with
      | some l => some (0 :: l)
      | none => none

/-- `nextPrefix` of the source: the exclusive upper bound of the range
of keys sharing a prefix, or `none` when every byte is 0xFF. -/
def nextPfx (p : Bytes) : Option Bytes :=
  (incBytesRev p.reverse).map List.reverse

/-- `prefixRange` of the source: `(nil, nil)` for the empty prefix,
otherwise `[prefix, nextPrefix prefix)`. -/
def pfxRange (p : Bytes) : Option Bytes × Option Bytes :=
  if p.length = 0 then (none, none) else (some p, nextPfx p)

/-- Membership of a key in a half-open scan range (`none` = unbounded). -/
def keyInRange (start stop : Option Bytes) (k : Bytes) : Bool :=
  (match start with
    | none => true
    | some s => !lexLt k s) &&
  (match stop with
    | none => true
    | some e => lexLt k e)

/-- Model of the engine's native `Scan(start, end)`: the entries whose
keys lie in the half-open range, in store order. -/
def dbScan (m : List (Bytes × Bytes)) (start stop : Option Bytes) :
    List (Bytes × Bytes) :=
  m.filter (fun kv => keyInRange start stop kv.1)

/-- `slateStore.Iterate`: range-scan with `prefixRange`, then skip any
key that does not carry the byte prefix (the `bytes.HasPrefix` guard in
the loop, skipped for an empty prefix). -/
def slateIterate (m : List (Bytes × Bytes)) (p : Bytes) :
    List (Bytes × Bytes) :=
  (dbScan m (pfxRange p).1 (pfxRange p).2).filter
    (fun kv => (p.length == 0) || p.isPrefixOf kv.1)

/-- Big-endian numeric value of a byte string. -/
def beVal (l : Bytes) : Nat :=
  l.foldl (fun a b => a * 256 + b) 0

theorem beVal_foldl_from (l : Bytes) (a : Nat) :
    l.foldl (fun x b => x * 256 + b) a = a * 256 ^ l.length + beVal l := by
  induction l generalizing a with
  | nil => simp [beVal]
  | cons b rest ih =>
    simp only [List.foldl_cons, List.length_cons, beVal, Nat.zero_mul,
      Nat.zero_add]
    rw [ih (a * 256 + b), ih b]
    ring

theorem beVal_append (u v : Bytes) :
    beVal (u ++ v) = beVal u * 256 ^ v.length + beVal v := by
  simp only [beVal, List.foldl_append]
  rw [beVal_foldl_from v (List.foldl (fun x b => x * 256 + b) 0 u)]
  rfl

theorem beVal_replicate_255 (n : Nat) :
    beVal (List.replicate n 255) = 256 ^ n - 1 := by
  induction n with
  | zero => simp [beVal]
  | succ n ih =>
    rw [List.replicate_succ]
    simp only [beVal, List.foldl_cons]
    rw [beVal_foldl_from]
    simp only [List.length_replicate]
    rw [show beVal (List.replicate n 255) = 256 ^ n - 1 from ih]
    have hpos : 1 ≤ 256 ^ n := Nat.one_le_pow _ _ (by norm_num)
    rw [pow_succ]
    omega

theorem beVal_replicate_0 (n : Nat) :
    beVal (List.replicate n 0) = 0 := by
  induction n with
  | zero => simp [beVal]
  | succ n ih =>
    rw [List.replicate_succ]
    simp only [beVal, List.foldl_cons]
    rw [beVal_foldl_from]
    rw [show beVal (List.replicate n 0) = 0 from ih]
    simp

theorem incBytesRev_replicate_255 (n : Nat) :
    incBytesRev (List.replicate n 255) = none := by
  induction n with
  | zero => rfl
  | succ n ih =>
    rw [List.replicate_succ]
    simp only [incBytesRev]
    rw [if_neg (by omega), ih]

theorem incBytesRev_replicate (n : Nat) (c : Nat) (t : Bytes) (hc : c < 255) :
    incBytesRev (List.replicate n 255 ++ c :: t) =
      some (List.replicate n 0 ++ (c + 1) :: t) := by
  induction n with
  | zero =>
    simp only [List.replicate, List.nil_append, incBytesRev]
    rw [if_pos (by omega), Nat.mod_eq_of_lt (by omega)]
  | succ n ih =>
    rw [List.replicate_succ, List.cons_append]
    simp only [incBytesRev]
    rw [if_neg (by omega), ih]
    rw [List.replicate_succ]
    rfl

theorem not_all_255_decomp (l : Bytes) (hb : ∀ b ∈ l, b < 256)
    (hne : ∃ b ∈ l, b ≠ 255) :
    ∃ n c t, l = List.replicate n 255 ++ c :: t ∧ c < 255 := by
  induction l with
  | nil => simp at hne
  | cons b rest ih =>
    by_cases h255 : b = 255
    · subst h255
      have hrest : ∀ x ∈ rest, x < 256 := fun x hx => hb x (by simp [hx])
      have hne' : ∃ x ∈ rest, x ≠ 255 := by
        rcases hne with ⟨x, hx, hxne⟩
        rcases List.mem_cons.mp hx with rfl | hx
        · exact absurd rfl hxne
        · exact ⟨x, hx, hxne⟩
      obtain ⟨n, c, t, heq, hc⟩ := ih hrest hne'
      exact ⟨n + 1, c, t, by rw [List.replicate_succ, List.cons_append, heq], hc⟩
    · have : b < 255 := by
        have := hb b (by simp)
        omega
      exact ⟨0, b, rest, by simp, this⟩

theorem lexLt_append_self (p s : Bytes) : lexLt (p ++ s) p = false := by
  induction p with
  | nil => cases s <;> rfl
  | cons a as ih =>
    simp only [List.cons_append, lexLt]
    simp [ih]

theorem lexLt_append_lt (r : Bytes) (c d : Nat) (u v : Bytes) (hcd : c < d) :
    lexLt (r ++ c :: u) (r ++ d :: v) = true := by
  induction r with
  | nil =>
    simp only [List.nil_append, lexLt]
    simp [hcd]
  | cons a as ih =>
    simp only [List.cons_append, lexLt]
    simp [ih]

theorem beVal_cons (x : Nat) (l : Bytes) :
    beVal (x :: l) = x * 256 ^ l.length + beVal l := by
  simp only [beVal, List.foldl_cons, Nat.zero_mul, Nat.zero_add]
  exact beVal_foldl_from l x

theorem nextPfx_all_255 (p : Bytes) (hall : ∀ b ∈ p, b = 255) :
    nextPfx p = none := by
  have hrep : p = List.replicate p.length 255 := List.eq_replicate_of_mem hall
  rw [nextPfx, hrep, List.reverse_replicate, incBytesRev_replicate_255]
  rfl

theorem nextPfx_decomp (p : Bytes) (hb : ∀ b ∈ p, b < 256)
    (hne : ∃ b ∈ p, b ≠ 255) :
    ∃ n c t, p = List.reverse t ++ c :: List.replicate n 255 ∧ c < 255 ∧
      nextPfx p = some (List.reverse t ++ (c + 1) :: List.replicate n 0) := by
  have hbrev : ∀ b ∈ p.reverse, b < 256 := fun b hbm => hb b (List.mem_reverse.mp hbm)
  have hnerev : ∃ b ∈ p.reverse, b ≠ 255 := by
    rcases hne with ⟨b, hbm, h⟩
    exact ⟨b, List.mem_reverse.mpr hbm, h⟩
  obtain ⟨n, c, t, heq, hc⟩ := not_all_255_decomp p.reverse hbrev hnerev
  refine ⟨n, c, t, ?_, hc, ?_⟩
  · have hrev := congrArg List.reverse heq
    rw [List.reverse_reverse] at hrev
    rw [hrev]
    simp [List.reverse_append, List.reverse_cons, List.reverse_replicate,
      List.append_assoc]
  · rw [nextPfx, heq, incBytesRev_replicate n c t hc]
    simp [List.reverse_append, List.reverse_cons, List.reverse_replicate,
      List.append_assoc]

theorem nextPfx_inc (p : Bytes) (hb : ∀ b ∈ p, b < 256)
    (hne : ∃ b ∈ p, b ≠ 255) :
    ∃ e, nextPfx p = some e ∧ e.length = p.length ∧ beVal e = beVal p + 1 := by
  obtain ⟨n, c, t, hp, hc, he⟩ := nextPfx_decomp p hb hne
  refine ⟨_, he, ?_, ?_⟩
  · rw [hp]
    simp
  · rw [hp, beVal_append, beVal_append, beVal_cons, beVal_cons,
      beVal_replicate_0, beVal_replicate_255, List.length_replicate,
      List.length_replicate, List.length_cons, List.length_cons,
      List.length_replicate, List.length_replicate]
    have hq : 1 ≤ 256 ^ n := Nat.one_le_pow _ _ (by norm_num)
    rw [Nat.add_mul, Nat.one_mul]
    omega

theorem keyInRange_of_isPrefixOf (p k : Bytes) (hb : ∀ b ∈ p, b < 256)
    (hpk : p.isPrefixOf k = true) :
    keyInRange (some p) (nextPfx p) k = true := by
  obtain ⟨s, rfl⟩ : ∃ s, k = p ++ s := by
    obtain ⟨s, hs⟩ := List.isPrefixOf_iff_prefix.mp hpk
    exact ⟨s, hs.symm⟩
  simp only [keyInRange, lexLt_append_self, Bool.not_false, Bool.true_and]
  cases hnp : nextPfx p with
  | none => rfl
  | some e =>
    by_cases hall : ∀ b ∈ p, b = 255
    · rw [nextPfx_all_255 p hall] at hnp
      cases hnp
    · push_neg at hall
      obtain ⟨n, c, t, hp, hc, he⟩ := nextPfx_decomp p hb hall
      rw [he] at hnp
      cases hnp
      rw [hp, List.append_assoc, List.cons_append]
      exact lexLt_append_lt (List.reverse t) c (c + 1) _ _ (by omega)

theorem slateIterate_exact (m : List (Bytes × Bytes)) (p : Bytes)
    (hb : ∀ b ∈ p, b < 256) :
    slateIterate m p = m.filter (fun kv => p.isPrefixOf kv.1) := by
  by_cases hp : p = []
  · subst hp
    simp [slateIterate, dbScan, pfxRange, keyInRange, List.isPrefixOf]
  · have hlen : ¬p.length = 0 := by
      cases p with
      | nil => exact absurd rfl hp
      | cons a t => simp
    simp only [slateIterate, pfxRange, if_neg hlen, dbScan]
    rw [List.filter_filter]
    apply List.filter_congr
    intro kv _
    cases hpk : p.isPrefixOf kv.1 with
    | true =>
      simp [keyInRange_of_isPrefixOf p kv.1 hb hpk, hpk]
    | false =>
      simp [hpk, hlen]

/-- C9: the scan range of a prefix. The empty prefix yields the fully
unbounded range and the iterator then visits every entry; a non-empty
prefix yields the half-open range starting at the prefix itself, whose
end is the prefix incremented as an unsigned integer with carry (same
length, numeric value one larger) or unbounded when every prefix byte is
0xFF; a key lies in the half-open range exactly when it is
lexicographically at or after the prefix and before the end; and the
iterator visits exactly the entries whose keys carry the byte prefix. -/
theorem scan_range_correct (p : Bytes) (hb : ∀ b ∈ p, b < 256) :
    pfxRange [] = (none, none) ∧
    (∀ m : List (Bytes × Bytes), slateIterate m [] = m) ∧
    (p ≠ [] → pfxRange p = (some p, nextPfx p)) ∧
    ((∀ b ∈ p, b = 255) → nextPfx p = none) ∧
    ((∃ b ∈ p, b ≠ 255) →
      ∃ e, nextPfx p = some e ∧ e.length = p.length ∧ beVal e = beVal p + 1) ∧
    (∀ k, keyInRange (some p) (nextPfx p) k = true ↔
      (lexLt k p = false ∧ ∀ e, nextPfx p = some e → lexLt k e = true)) ∧
    (∀ m : List (Bytes × Bytes),
      slateIterate m p = m.filter (fun kv => p.isPrefixOf kv.1)) := by
  refine ⟨rfl, ?_, ?_, nextPfx_all_255 p, nextPfx_inc p hb, ?_,
    fun m => slateIterate_exact m p hb⟩
  · intro m
    rw [slateIterate_exact m [] (by simp)]
    simp [List.isPrefixOf]
  · intro hne
    have hlen : ¬p.length = 0 := by
      cases p with
      | nil => exact absurd rfl hne
      | cons a t => simp
    simp [pfxRange, hlen]
  · intro k
    cases hnp : nextPfx p with
    | none => simp [keyInRange]
    | some e => simp [keyInRange]

/-- Witness for C9 at the prefix `[97, 255]` (whose increment carries
into the first byte) over a three-entry store. -/
theorem scan_range_correct_witness :
    pfxRange [] = (none, none) ∧
    (∀ m : List (Bytes × Bytes), slateIterate m [] = m) ∧
    (([97, 255] : Bytes) ≠ [] →
      pfxRange [97, 255] = (some [97, 255], nextPfx [97, 255])) ∧
    ((∀ b ∈ ([97, 255] : Bytes), b = 255) → nextPfx [97, 255] = none) ∧
    ((∃ b ∈ ([97, 255] : Bytes), b ≠ 255) →
      ∃ e, nextPfx [97, 255] = some e ∧ e.length = ([97, 255] : Bytes).length ∧
        beVal e = beVal [97, 255] + 1) ∧
    (∀ k, keyInRange (some [97, 255]) (nextPfx [97, 255]) k = true ↔
      (lexLt k [97, 255] = false ∧
        ∀ e, nextPfx [97, 255] = some e → lexLt k e = true)) ∧
    (∀ m : List (Bytes × Bytes),
      slateIterate m [97, 255] = m.filter (fun kv => List.isPrefixOf [97, 255] kv.1)) :=
  scan_range_correct [97, 255] (by decide)

/-! ## Store opener (`openStore` / `openSlate` / `openBadger`)

Go strings are modelled as `List Char`. `strings.ToLower` agrees with
`Char.toLower` on the ASCII range relevant to the scheme test, and
`strings.TrimSpace` is modelled over the ASCII whitespace characters. -/

/-- `unicode.IsSpace` on the ASCII whitespace characters. -/
def goIsSpace (c : Char) : Bool :=
  c = ' ' || c = '\t' || c = '\n' || c = '\r' ||
    c = Char.ofNat 11 || c = Char.ofNat 12

/-- `strings.TrimSpace`. -/
def goTrimSpace (s : List Char) : List Char :=
  ((s.dropWhile goIsSpace).reverse.dropWhile goIsSpace).reverse

/-- `strings.ToLower`. -/
def goToLower (s : List Char) : List Char :=
  s.map Char.toLower

/-- `strings.HasPrefix s p`. -/
def goHasPfx (s p : List Char) : Bool :=
  p.isPrefixOf s

/-- `strings.TrimPrefix s p` — note: case-sensitive. -/
def goTrimPfx (s p : List Char) : List Char :=
  if p.isPrefixOf s then s.drop p.length else s

/-- `defaultDataDir`: `filepath.Join("data", name)` with an empty name
replaced by `"data"`. -/
def defaultDataDir (name : List Char) : List Char :=
  "data/".data ++ (if name = [] then "data".data else name)

/-- How `openSlate` interprets the configuration part of the location
string (the structured-JSON branch carries the raw payload handed to
`json.Unmarshal`, which is external). -/
inductive SlateSource where
  | defaultDir : SlateSource
  | jsonConfig (raw : List Char) : SlateSource
  | pathVerbatim (path : List Char) : SlateSource
deriving DecidableEq, Repr

/-- The backend and configuration source selected by `openStore`. -/
inductive OpenChoice where
  | slate (src : SlateSource) : OpenChoice
  | badgerMem : OpenChoice
  | badgerDisk (path : List Char) : OpenChoice
deriving DecidableEq, Repr

/-- `openSlate` (lines 299–315): strip the scheme with the
case-sensitive `TrimPrefix`, trim, strip a leading `//`, then select the
configuration source. -/
def openSlate (raw : List Char) : SlateSource :=
  let configPart := goTrimSpace (goTrimPfx raw ("slatedb:".data))
  let configPart2 :=
    if goHasPfx configPart ("//".data) then configPart.drop 2 else configPart
  if configPart2 = [] then SlateSource.defaultDir
  else if goHasPfx (goTrimSpace configPart2) ("\x7b".data) then
    SlateSource.jsonConfig configPart2
  else SlateSource.pathVerbatim configPart2

/-- `openBadger`: default directory when on-disk with an empty path;
purely in-memory when the flag is set. -/
def openBadger (path : List Char) (inMemory : Bool) : OpenChoice :=
  let path2 := if !inMemory && path = [] then defaultDataDir ("badger".data) else path
  if inMemory || path2 = [] then OpenChoice.badgerMem else OpenChoice.badgerDisk path2

/-- `openStore`: trim, test the scheme case-insensitively, dispatch. -/
def openStore (path : List Char) (inMemory : Bool) : OpenChoice :=
  let trimmed := goTrimSpace path
  if goHasPfx (goToLower trimmed) ("slatedb:".data) then
    OpenChoice.slate (openSlate trimmed)
  else openBadger trimmed inMemory

/-- C1 (code bug): the scheme test in `openStore` is case-insensitive,
but `openSlate` strips the scheme with the case-sensitive
`strings.TrimPrefix`, so an upper-case scheme spelling is routed to the
SlateDB opener with the WHOLE string — scheme included — used verbatim
as the path, while the lowercase spelling uses only the remainder; the
lowercase empty and JSON remainders behave as specified. -/
theorem open_scheme_case_bug :
    openStore ("SLATEDB:mydata".data) false =
      OpenChoice.slate (SlateSource.pathVerbatim ("SLATEDB:mydata".data)) ∧
    openStore ("slatedb:mydata".data) false =
      OpenChoice.slate (SlateSource.pathVerbatim ("mydata".data)) ∧
    ("SLATEDB:mydata".data ≠ ("mydata".data : List Char)) ∧
    openStore (" slatedb://mydata".data) false =
      OpenChoice.slate (SlateSource.pathVerbatim ("mydata".data)) ∧
    openStore ("slatedb:".data) false = OpenChoice.slate SlateSource.defaultDir ∧
    openStore ("slatedb://".data) false = OpenChoice.slate SlateSource.defaultDir ∧
    openStore ("slatedb:\x7b\x7d".data) false =
      OpenChoice.slate (SlateSource.jsonConfig ("\x7b\x7d".data)) := by
  decide

/-- `slatedb.StoreConfig` as read by `openSlate`: only the `Provider`
field is inspected (the nested AWS settings pass through untouched and
are not modelled). -/
structure StoreConfig where
  provider : List Char
deriving DecidableEq, Repr

/-- `slateOpenConfig`: the result of parsing the configuration part
(`path` plus optional nested store configuration). -/
structure slateOpenConfig where
  path : List Char
  store : Option StoreConfig
deriving DecidableEq, Repr

/-- `slatedb.ProviderLocal`. -/
def ProviderLocal : List Char := "local".data

/-- Lines 317–330 of the source: after the configuration is parsed,
an empty path falls back to the default data directory, and a nil store
configuration or an empty provider string falls back to the local
provider; the pair is what `slatedb.Open` receives. -/
def resolveSlateOpen (cfg : slateOpenConfig) : List Char × StoreConfig :=
  let path := if cfg.path = [] then defaultDataDir ("slatedb".data) else cfg.path
  let storeCfg :=
    match cfg.store with
    | none => { provider := ProviderLocal }
    | some sc => if sc.provider = [] then { provider := ProviderLocal } else sc
  (path, storeCfg)

/-- C8 counterexample: a parsed configuration carrying the unknown
provider `"wat"` is handed to the engine with provider `"wat"`, not the
local provider — only an absent or empty provider falls back to local. -/
theorem slate_unknown_provider_counterexample :
    (resolveSlateOpen ⟨"p".data, some ⟨"wat".data⟩⟩).2.provider = "wat".data ∧
    ("wat".data : List Char) ≠ ProviderLocal := by
  decide

/-- C8 (amended): an empty parsed path (including the structured case
with no path field) falls back to the default data directory; an absent
store configuration or an empty provider string defaults the provider to
local; a non-empty provider string is passed through to the engine
unchanged. -/
theorem slate_open_defaults (cfg : slateOpenConfig) :
    (cfg.path = [] → (resolveSlateOpen cfg).1 = "data/slatedb".data) ∧
    (cfg.path ≠ [] → (resolveSlateOpen cfg).1 = cfg.path) ∧
    (cfg.store = none → (resolveSlateOpen cfg).2.provider = ProviderLocal) ∧
    (∀ sc, cfg.store = some sc → sc.provider = [] →
      (resolveSlateOpen cfg).2.provider = ProviderLocal) ∧
    (∀ sc, cfg.store = some sc → sc.provider ≠ [] →
      (resolveSlateOpen cfg).2 = sc) := by
  refine ⟨fun h => ?_, fun h => ?_, fun h => ?_, fun sc h hp => ?_,
    fun sc h hp => ?_⟩
  · simp only [resolveSlateOpen, h, if_pos rfl]
    decide
  · simp [resolveSlateOpen, h]
  · simp [resolveSlateOpen, h]
  · simp [resolveSlateOpen, h, hp]
  · simp [resolveSlateOpen, h, hp]

/-- Witness for C8 (amended) at the empty configuration and at an
empty-provider configuration. -/
theorem slate_open_defaults_witness :
    (resolveSlateOpen ⟨[], none⟩).1 = "data/slatedb".data ∧
    (resolveSlateOpen ⟨[], none⟩).2.provider = ProviderLocal ∧
    (resolveSlateOpen ⟨"p".data, some ⟨[]⟩⟩).2.provider = ProviderLocal ∧
    (resolveSlateOpen ⟨"p".data, some ⟨"aws".data⟩⟩).2 = (⟨"aws".data⟩ : StoreConfig) :=
  ⟨(slate_open_defaults ⟨[], none⟩).1 rfl,
    (slate_open_defaults ⟨[], none⟩).2.2.1 rfl,
    (slate_open_defaults ⟨"p".data, some ⟨[]⟩⟩).2.2.2.1 ⟨[]⟩ rfl rfl,
    (slate_open_defaults ⟨"p".data, some ⟨"aws".data⟩⟩).2.2.2.2 ⟨"aws".data⟩ rfl
      (by decide)⟩
